import Mathlib

/-!
Shallow embedding of the carton packing and serialization engine of
NomanMediaMonitors/Barcode-Software, src/app.py lines 65-222:
the capacity table CARTON_CAPACITIES, the classifiers
get_carton_capacity and get_product_type, and the packing routine
pack_cartons_smart with its single-product filling loop and its
remainder mixing loop.  Serial numbers are Python ints that the code
only ever moves forward, so they are modelled as Nat.
-/

/-- Embeds Python's str.startswith used at src/app.py lines 75 and 82:
a code starts with a candidate key when the key's characters form an
initial segment of the code's characters. -/
def strStartsWith (s p : String) : Bool := p.data.isPrefixOf s.data

/-- Embeds the module-level table CARTON_CAPACITIES (src/app.py lines 66-70),
an insertion-ordered dict, as the ordered list of its (key, capacity) pairs. -/
def CARTON_CAPACITIES : List (String × Nat) :=
  [("WALT", 150), ("4PCS", 80), ("LAPB", 12)]

/-- Embeds the scanning for-loop of get_carton_capacity (src/app.py lines 74-76):
walk the ordered table and return the capacity of the first key the
product code starts with, or none when no key matches. -/
def capacityScan : List (String × Nat) → String → Option Nat
  | [], _ => none
  | (p, c) :: rest, code =>
      if strStartsWith code p then some c else capacityScan rest code

/-- Embeds the scanning for-loop of get_product_type (src/app.py lines 81-83):
walk the ordered table keys and return the first key the product code
starts with, or none when no key matches. -/
def typeScan : List (String × Nat) → String → Option String
  | [], _ => none
  | (p, _) :: rest, code =>
      if strStartsWith code p then some p else typeScan rest code

/-- Embeds get_carton_capacity (src/app.py lines 72-77): first matching
table entry's capacity, defaulting to 100. -/
def get_carton_capacity (product_code : String) : Nat :=
  (capacityScan CARTON_CAPACITIES product_code).getD 100

/-- Embeds get_product_type (src/app.py lines 79-84): first matching
table key, defaulting to "OTHER". -/
def get_product_type (product_code : String) : String :=
  (typeScan CARTON_CAPACITIES product_code).getD "OTHER"

/-- Embeds one element of the cart_items argument of pack_cartons_smart:
the fields the function reads (src/app.py lines 118-121) — the nested
item['product']['code'], item['product']['name'], item['location']['code']
and the flat item['start_serial'], item['end_serial'].  The dict also
carries a 'quantity' key (src/app.py line 748) that pack_cartons_smart
never reads, so it is not part of the embedded input. -/
structure CartItem where
  code : String
  name : String
  location_code : String
  start_serial : Nat
  end_serial : Nat
deriving DecidableEq, Repr

/-- Embeds one element of a carton's 'items' list (src/app.py lines 135-141,
150-156, 174-180, 187-193). -/
structure CartonLine where
  product_code : String
  product_name : String
  start_serial : Nat
  end_serial : Nat
  quantity : Nat
  location_code : String
deriving DecidableEq, Repr

/-- Embeds one carton dict appended to all_cartons (src/app.py lines
134-145, 202-209, 214-219). -/
structure Carton where
  items : List CartonLine
  capacity : Nat
  total_quantity : Nat
  is_mixed : Bool
  product_type : String
deriving DecidableEq, Repr

/-- Embeds one step of filling items_by_type, a defaultdict(list)
(src/app.py lines 104-107): append the item to the group with the given
key when one exists, otherwise create that group at the end, preserving
insertion order as Python dicts do. -/
def addToGroup (groups : List (String × List CartItem)) (key : String)
    (item : CartItem) : List (String × List CartItem) :=
  match groups with
  | [] => [(key, [item])]
  | (k, l) :: rest =>
      if k = key then (k, l ++ [item]) :: rest
      else (k, l) :: addToGroup rest key item

/-- Embeds the grouping loop of pack_cartons_smart (src/app.py lines
104-107): group the cart items by product type, buckets ordered by
first encounter. -/
def groupByType (cart_items : List CartItem) : List (String × List CartItem) :=
  cart_items.foldl (fun gs it => addToGroup gs (get_product_type it.code) it) []

/-- Embeds the single-product filling while-loop of pack_cartons_smart
(src/app.py lines 123-157) for one cart item: starting at current_serial,
while the remaining span is at least the capacity, emit a full
single-product carton covering the next capacity serials; a final
non-empty span smaller than the capacity becomes a remainder entry
(the loop's break) and an exhausted span ends the loop.  Returns the
emitted full cartons and the zero or one remainder entries. -/
def fillItem (product_type : String) (capacity : Nat) (hcap : 0 < capacity)
    (item : CartItem) (current_serial : Nat) : List Carton × List CartonLine :=
  if current_serial ≤ item.end_serial then
    if capacity ≤ item.end_serial - current_serial + 1 then
      let rest := fillItem product_type capacity hcap item
        (current_serial + capacity - 1 + 1)
      ({ items := [{ product_code := item.code, product_name := item.name,
                     start_serial := current_serial,
                     end_serial := current_serial + capacity - 1,
                     quantity := capacity, location_code := item.location_code }],
         capacity := capacity, total_quantity := capacity,
         is_mixed := false, product_type := product_type } :: rest.1, rest.2)
    else
      ([], [{ product_code := item.code, product_name := item.name,
              start_serial := current_serial, end_serial := item.end_serial,
              quantity := item.end_serial - current_serial + 1,
              location_code := item.location_code }])
  else ([], [])
termination_by item.end_serial + 1 - current_serial
decreasing_by omega

/-- Embeds the per-bucket item loop of pack_cartons_smart (src/app.py
lines 117-157): run the filling loop over each item of the bucket in
input order, concatenating full cartons in emission order and
remainders in encounter order. -/
def fillBucket (product_type : String) (capacity : Nat) (hcap : 0 < capacity) :
    List CartItem → List Carton × List CartonLine
  | [] => ([], [])
  | it :: rest =>
      let r1 := fillItem product_type capacity hcap it it.start_serial
      let r2 := fillBucket product_type capacity hcap rest
      (r1.1 ++ r2.1, r1.2 ++ r2.2)

/-- Embeds the carton dict built when the mixing loop seals a full
buffer (src/app.py lines 202-209): total_quantity is recorded as the
capacity and is_mixed as whether the buffer holds more than one
distinct product code. -/
def mixFlush (product_type : String) (capacity : Nat)
    (cur : List CartonLine) : Carton :=
  { items := cur, capacity := capacity, total_quantity := capacity,
    is_mixed := decide (1 < ((cur.map (fun l => l.product_code)).dedup).length),
    product_type := product_type }

/-- Embeds the mutable state of the remainder mixing loop (src/app.py
lines 160-162): the cartons appended to all_cartons so far, the buffer
current_carton_items and the counter current_carton_qty. -/
structure MixState where
  cartons : List Carton
  cur_items : List CartonLine
  cur_qty : Nat
deriving DecidableEq, Repr

/-- Embeds the inner while-loop of the remainder mixing pass
(src/app.py lines 168-211) for one remainder: while units remain,
either the whole rest fits into the space left in the buffer
(capacity - current_carton_qty) and is appended there ending the loop,
or the front slice exactly filling the space (when the space is
positive) is appended, the buffer is sealed as a carton, cleared, and
the loop continues with the leftover slice. -/
def mixConsume (product_type : String) (capacity : Nat) (hcap : 0 < capacity)
    (r : CartonLine) (current_start remaining_to_pack : Nat)
    (st : MixState) : MixState :=
  if 0 < remaining_to_pack then
    if remaining_to_pack ≤ capacity - st.cur_qty then
      { st with
        cur_items := st.cur_items ++
          [{ product_code := r.product_code, product_name := r.product_name,
             start_serial := current_start,
             end_serial := current_start + remaining_to_pack - 1,
             quantity := remaining_to_pack, location_code := r.location_code }],
        cur_qty := st.cur_qty + remaining_to_pack }
    else if 0 < capacity - st.cur_qty then
      mixConsume product_type capacity hcap r
        (current_start + (capacity - st.cur_qty))
        (remaining_to_pack - (capacity - st.cur_qty))
        { cartons := st.cartons ++
            [mixFlush product_type capacity (st.cur_items ++
              [{ product_code := r.product_code, product_name := r.product_name,
                 start_serial := current_start,
                 end_serial := current_start + (capacity - st.cur_qty) - 1,
                 quantity := capacity - st.cur_qty,
                 location_code := r.location_code }])],
          cur_items := [], cur_qty := 0 }
    else
      mixConsume product_type capacity hcap r current_start remaining_to_pack
        { cartons := st.cartons ++ [mixFlush product_type capacity st.cur_items],
          cur_items := [], cur_qty := 0 }
  else st
termination_by remaining_to_pack * 2 + (if 0 < st.cur_qty then 1 else 0)
decreasing_by
  all_goals (repeat' split) <;> omega

/-- Embeds the remainder mixing pass of pack_cartons_smart (src/app.py
lines 159-220): feed each remainder, in encounter order, through the
inner loop starting from its own start serial and full quantity; after
the last remainder, a non-empty buffer is appended as a final carton
whose total_quantity is the running counter (src/app.py lines 213-219). -/
def mixRemainders (product_type : String) (capacity : Nat) (hcap : 0 < capacity)
    (remainders : List CartonLine) : List Carton :=
  let st := remainders.foldl
    (fun st r => mixConsume product_type capacity hcap r r.start_serial r.quantity st)
    { cartons := [], cur_items := [], cur_qty := 0 }
  if st.cur_items = [] then st.cartons
  else st.cartons ++
    [{ items := st.cur_items, capacity := capacity,
       total_quantity := st.cur_qty,
       is_mixed := decide (1 < ((st.cur_items.map (fun l => l.product_code)).dedup).length),
       product_type := product_type }]

/-- Proves that every capacity the table scan can produce is positive:
the table holds 150, 80 and 12 and the fallback is 100 (src/app.py
lines 66-77).  Stated as a definition because the packing definitions
below consume it. -/
def get_carton_capacity_pos (code : String) : 0 < get_carton_capacity code := by
  simp only [get_carton_capacity, CARTON_CAPACITIES, capacityScan]
  repeat' split
  all_goals decide

/-- Embeds the per-bucket body of pack_cartons_smart (src/app.py lines
115-220): the bucket capacity is read from the first item of the bucket
(items[0], src/app.py line 116; a bucket produced by the grouping is
never empty, the empty case below is unreachable), the filling loop
runs over the bucket's items, and the mixing pass runs over the
collected remainders; the bucket contributes its full cartons followed
by its mixed cartons. -/
def processBucket (product_type : String) (items : List CartItem) : List Carton :=
  match items with
  | [] => []
  | i0 :: _ =>
      let capacity := get_carton_capacity i0.code
      let fr := fillBucket product_type capacity (get_carton_capacity_pos i0.code) items
      fr.1 ++ mixRemainders product_type capacity (get_carton_capacity_pos i0.code) fr.2

/-- Embeds pack_cartons_smart (src/app.py lines 86-222): group the cart
items by product type in first-encounter order, process each bucket in
that order, and concatenate the buckets' cartons. -/
def pack_cartons_smart (cart_items : List CartItem) : List Carton :=
  (groupByType cart_items).flatMap (fun g => processBucket g.1 g.2)

/-- Measures the total of the quantity fields of a list of carton lines,
Python's sum(line['quantity'] for line in items). -/
def sumQ (ls : List CartonLine) : Nat := (ls.map (fun l => l.quantity)).sum

/-- Reconstructs the set of (product code, serial) pairs a carton line
covers: its code paired with every serial of its slice
[start_serial, end_serial]. -/
def lineSerials (l : CartonLine) : List (String × Nat) :=
  (List.range' l.start_serial (l.end_serial + 1 - l.start_serial)).map
    (fun s => (l.product_code, s))

/-- Reconstructs the (product code, serial) pairs covered by a list of
carton lines, in order. -/
def linesSerials (ls : List CartonLine) : List (String × Nat) :=
  ls.flatMap lineSerials

/-- Reconstructs the (product code, serial) pairs covered by the lines of
a list of cartons, in order. -/
def cartonsSerials (cs : List Carton) : List (String × Nat) :=
  cs.flatMap (fun c => linesSerials c.items)

/-- Reconstructs the (product code, serial) pairs a cart item (product
run) spans: its code paired with every serial of
[start_serial, end_serial]. -/
def itemSerials (i : CartItem) : List (String × Nat) :=
  (List.range' i.start_serial (i.end_serial + 1 - i.start_serial)).map
    (fun s => (i.code, s))

/-- Reconstructs the (product code, serial) pairs spanned by a full input
list of cart items, in order. -/
def cartSerials (items : List CartItem) : List (String × Nat) :=
  items.flatMap itemSerials

/-- Modelled from the spec's words for the grouping contract: insert a
bucket key at the end of the key list unless it is already present, so
that the list records buckets in the order they are first encountered. -/
def addKey (ks : List String) (k : String) : List String :=
  if k ∈ ks then ks else ks ++ [k]

/-- Modelled from the spec's words: the bucket keys of an input list in
the order the buckets are first encountered. -/
def specBucketOrder (items : List CartItem) : List String :=
  items.foldl (fun ks it => addKey ks (get_product_type it.code)) []

/-- Modelled from the spec's words: the sub-list of the input belonging
to one bucket, in input order. -/
def specBucketItems (items : List CartItem) (t : String) : List CartItem :=
  items.filter (fun it => get_product_type it.code == t)

/-- Fixture: a WALT run of 230 serials 1-230 (spec Scenario B). -/
def itmW : CartItem :=
  { code := "WALT BLCK", name := "WALLET BLACK", location_code := "ISB",
    start_serial := 1, end_serial := 230 }

/-- Fixture: the full carton the filling phase emits for itmW. -/
def fullW : Carton :=
  { items := [{ product_code := "WALT BLCK", product_name := "WALLET BLACK",
                start_serial := 1, end_serial := 150, quantity := 150,
                location_code := "ISB" }],
    capacity := 150, total_quantity := 150, is_mixed := false,
    product_type := "WALT" }

/-- Fixture: the remainder line the filling phase leaves for itmW. -/
def lineW : CartonLine :=
  { product_code := "WALT BLCK", product_name := "WALLET BLACK",
    start_serial := 151, end_serial := 230, quantity := 80,
    location_code := "ISB" }

/-- Fixture: the under-filled trailing carton for itmW. -/
def restW : Carton :=
  { items := [lineW], capacity := 150, total_quantity := 80,
    is_mixed := false, product_type := "WALT" }

/-- Fixture for spec Scenario C: run A, 80 WALLET BLACK serials 1-80. -/
def itmA : CartItem :=
  { code := "WALT BLCK", name := "WALLET BLACK", location_code := "ISB",
    start_serial := 1, end_serial := 80 }

/-- Fixture for spec Scenario C: run B, 100 WALLET BROWN serials 101-200. -/
def itmB : CartItem :=
  { code := "WALT BRWN", name := "WALLET BROWN", location_code := "ISB",
    start_serial := 101, end_serial := 200 }

/-- Fixture: remainder line of itmA, the whole run. -/
def lineA : CartonLine :=
  { product_code := "WALT BLCK", product_name := "WALLET BLACK",
    start_serial := 1, end_serial := 80, quantity := 80,
    location_code := "ISB" }

/-- Fixture: remainder line of itmB, the whole run. -/
def lineB : CartonLine :=
  { product_code := "WALT BRWN", product_name := "WALLET BROWN",
    start_serial := 101, end_serial := 200, quantity := 100,
    location_code := "ISB" }

/-- Fixture: first mixer carton of Scenario C, A's 80 units plus B's
front 70 units, filled to 150 and mixed. -/
def mixC1 : Carton :=
  { items := [lineA,
      { product_code := "WALT BRWN", product_name := "WALLET BROWN",
        start_serial := 101, end_serial := 170, quantity := 70,
        location_code := "ISB" }],
    capacity := 150, total_quantity := 150, is_mixed := true,
    product_type := "WALT" }

/-- Fixture: second mixer carton of Scenario C, B's remaining 30 units,
not mixed. -/
def mixC2 : Carton :=
  { items := [{ product_code := "WALT BRWN", product_name := "WALLET BROWN",
                start_serial := 171, end_serial := 200, quantity := 30,
                location_code := "ISB" }],
    capacity := 150, total_quantity := 30, is_mixed := false,
    product_type := "WALT" }

/-- Fixture: a valid run of exactly one full carton, 150 serials 1-150. -/
def goodI : CartItem :=
  { code := "WALT BLCK", name := "WALLET BLACK", location_code := "ISB",
    start_serial := 1, end_serial := 150 }

/-- Fixture: an invalid run with end_serial < start_serial (the spec's
quantity-0 run), in the same WALT bucket. -/
def badI : CartItem :=
  { code := "WALT TAN", name := "WALLET TAN", location_code := "ISB",
    start_serial := 5, end_serial := 4 }

/-- Fixture: the full carton goodI yields. -/
def fullG : Carton :=
  { items := [{ product_code := "WALT BLCK", product_name := "WALLET BLACK",
                start_serial := 1, end_serial := 150, quantity := 150,
                location_code := "ISB" }],
    capacity := 150, total_quantity := 150, is_mixed := false,
    product_type := "WALT" }

/-- Fixture: a second WALLET BLACK run, 100 serials 201-300, for a
carton holding two slices of the same product. -/
def itmD : CartItem :=
  { code := "WALT BLCK", name := "WALLET BLACK", location_code := "ISB",
    start_serial := 201, end_serial := 300 }

/-- Fixture: the carton holding two slices of WALLET BLACK (from itmA
and itmD), full but not mixed because both lines share one product code. -/
def sameC1 : Carton :=
  { items := [lineA,
      { product_code := "WALT BLCK", product_name := "WALLET BLACK",
        start_serial := 201, end_serial := 270, quantity := 70,
        location_code := "ISB" }],
    capacity := 150, total_quantity := 150, is_mixed := false,
    product_type := "WALT" }

/-- Fixture: the trailing carton of the itmA/itmD mix, WALLET BLACK
serials 271-300. -/
def sameC2 : Carton :=
  { items := [{ product_code := "WALT BLCK", product_name := "WALLET BLACK",
                start_serial := 271, end_serial := 300, quantity := 30,
                location_code := "ISB" }],
    capacity := 150, total_quantity := 30, is_mixed := false,
    product_type := "WALT" }

/-- Measures the (product code, serial) pairs held by a mixing state:
those of its sealed cartons followed by those of its buffer. -/
def stateSerials (st : MixState) : List (String × Nat) :=
  cartonsSerials st.cartons ++ linesSerials st.cur_items

/-- States the invariant of the remainder mixing loop: the running
counter equals the buffer's total quantity and never exceeds the
capacity, the buffer's lines are well-formed slices, and every sealed
carton is a full, well-formed carton of this bucket. -/
def MixInv (pt : String) (cap : Nat) (st : MixState) : Prop :=
  st.cur_qty = sumQ st.cur_items ∧ st.cur_qty ≤ cap ∧
  (∀ l ∈ st.cur_items, 0 < l.quantity ∧
    l.quantity = l.end_serial + 1 - l.start_serial) ∧
  (∀ c ∈ st.cartons, c.capacity = cap ∧ c.product_type = pt ∧ c.items ≠ [] ∧
    c.total_quantity = cap ∧ sumQ c.items = cap ∧
    c.is_mixed = decide (1 < ((c.items.map (fun l => l.product_code)).dedup).length) ∧
    ∀ l ∈ c.items, 0 < l.quantity ∧
      l.quantity = l.end_serial + 1 - l.start_serial)

/-! Helper lemmas. -/

/-- Specializes processBucket to a non-empty bucket whose capacity is a
given literal, replacing the positivity proof, so that concrete runs can
be evaluated without rewriting under proof arguments. -/
theorem processBucket_cons (pt : String) (i0 : CartItem) (rest : List CartItem)
    (c : Nat) (h' : 0 < c) (e : get_carton_capacity i0.code = c) :
    processBucket pt (i0 :: rest) =
      (fillBucket pt c h' (i0 :: rest)).1 ++
        mixRemainders pt c h' (fillBucket pt c h' (i0 :: rest)).2 := by
  subst e
  rfl

/-- Evaluates the packing of the single 230-unit run itmW: one full
carton and one under-filled trailing carton. -/
theorem pack_itmW : pack_cartons_smart [itmW] = [fullW, restW] := by
  have hg : groupByType [itmW] = [("WALT", [itmW])] := by
    have h1 : get_product_type "WALT BLCK" = "WALT" := by decide
    simp [groupByType, addToGroup, itmW, List.foldl, h1]
  rw [pack_cartons_smart, hg]
  simp only [List.flatMap_cons, List.flatMap_nil, List.append_nil]
  rw [processBucket_cons "WALT" itmW [] 150 (by decide) (by decide)]
  have hf : fillBucket "WALT" 150 (by decide) [itmW] = ([fullW], [lineW]) := by
    simp [fillBucket, fillItem, itmW, fullW, lineW]
  have hm : mixRemainders "WALT" 150 (by decide) [lineW] = [restW] := by
    simp [mixRemainders, mixConsume, mixFlush, List.foldl, lineW, restW]
  rw [hf]
  simp only [hm, List.singleton_append]

/-- Evaluates the packing of Scenario C's two runs itmA and itmB: no
full carton, then the mixer emits the 150-unit mixed carton and the
30-unit trailing carton. -/
theorem pack_scenC : pack_cartons_smart [itmA, itmB] = [mixC1, mixC2] := by
  have hg : groupByType [itmA, itmB] = [("WALT", [itmA, itmB])] := by
    have h1 : get_product_type "WALT BLCK" = "WALT" := by decide
    have h2 : get_product_type "WALT BRWN" = "WALT" := by decide
    simp [groupByType, addToGroup, itmA, itmB, List.foldl, h1, h2]
  rw [pack_cartons_smart, hg]
  simp only [List.flatMap_cons, List.flatMap_nil, List.append_nil]
  rw [processBucket_cons "WALT" itmA [itmB] 150 (by decide) (by decide)]
  have hf : fillBucket "WALT" 150 (by decide) [itmA, itmB] = ([], [lineA, lineB]) := by
    simp [fillBucket, fillItem, itmA, itmB, lineA, lineB]
  have hm : mixRemainders "WALT" 150 (by decide) [lineA, lineB] = [mixC1, mixC2] := by
    simp [mixRemainders, mixConsume, mixFlush, List.foldl, lineA, lineB, mixC1, mixC2]
  rw [hf]
  simp only [hm, List.nil_append]

/-- Evaluates the packing of a valid full-carton run followed by an
invalid run whose end_serial precedes its start_serial: the call
returns the valid run's carton and silently skips the invalid run. -/
theorem pack_goodBad : pack_cartons_smart [goodI, badI] = [fullG] := by
  have hg : groupByType [goodI, badI] = [("WALT", [goodI, badI])] := by
    have h1 : get_product_type "WALT BLCK" = "WALT" := by decide
    have h2 : get_product_type "WALT TAN" = "WALT" := by decide
    simp [groupByType, addToGroup, goodI, badI, List.foldl, h1, h2]
  rw [pack_cartons_smart, hg]
  simp only [List.flatMap_cons, List.flatMap_nil, List.append_nil]
  rw [processBucket_cons "WALT" goodI [badI] 150 (by decide) (by decide)]
  have hf : fillBucket "WALT" 150 (by decide) [goodI, badI] = ([fullG], []) := by
    simp [fillBucket, fillItem, goodI, badI, fullG]
  have hm : mixRemainders "WALT" 150 (by decide) ([] : List CartonLine) = [] := by
    simp [mixRemainders, List.foldl]
  rw [hf]
  simp only [hm, List.append_nil]

/-- Evaluates the packing of two WALLET BLACK runs of 80 and 100 units:
the mixer carton holds two slices of the same product and is not mixed. -/
theorem pack_sameCode : pack_cartons_smart [itmA, itmD] = [sameC1, sameC2] := by
  have hg : groupByType [itmA, itmD] = [("WALT", [itmA, itmD])] := by
    have h1 : get_product_type "WALT BLCK" = "WALT" := by decide
    simp [groupByType, addToGroup, itmA, itmD, List.foldl, h1]
  rw [pack_cartons_smart, hg]
  simp only [List.flatMap_cons, List.flatMap_nil, List.append_nil]
  rw [processBucket_cons "WALT" itmA [itmD] 150 (by decide) (by decide)]
  have hf : fillBucket "WALT" 150 (by decide) [itmA, itmD] =
      ([], [lineA,
        { product_code := "WALT BLCK", product_name := "WALLET BLACK",
          start_serial := 201, end_serial := 300, quantity := 100,
          location_code := "ISB" }]) := by
    simp [fillBucket, fillItem, itmA, itmD, lineA]
  have hm : mixRemainders "WALT" 150 (by decide)
      [lineA,
        { product_code := "WALT BLCK", product_name := "WALLET BLACK",
          start_serial := 201, end_serial := 300, quantity := 100,
          location_code := "ISB" }] = [sameC1, sameC2] := by
    simp [mixRemainders, mixConsume, mixFlush, List.foldl, lineA, sameC1, sameC2]
  rw [hf]
  simp only [hm, List.nil_append]
theorem linesSerials_append (a b : List CartonLine) :
    linesSerials (a ++ b) = linesSerials a ++ linesSerials b := by
  simp [linesSerials]

theorem cartonsSerials_append (a b : List Carton) :
    cartonsSerials (a ++ b) = cartonsSerials a ++ cartonsSerials b := by
  simp [cartonsSerials]

theorem cartSerials_cons (i : CartItem) (l : List CartItem) :
    cartSerials (i :: l) = itemSerials i ++ cartSerials l := by
  simp [cartSerials]

theorem perm_shuffle {α : Type} (A B C D : List α) :
    List.Perm ((A ++ B) ++ (C ++ D)) ((A ++ C) ++ (B ++ D)) := by
  rw [List.append_assoc, List.append_assoc]
  refine List.Perm.append_left _ ?_
  rw [← List.append_assoc, ← List.append_assoc]
  exact List.Perm.append_right _ List.perm_append_comm

theorem fillItem_serials (pt : String) (cap : Nat) (h : 0 < cap) (item : CartItem)
    (cur : Nat) :
    cartonsSerials (fillItem pt cap h item cur).1 ++
      linesSerials (fillItem pt cap h item cur).2 =
    (List.range' cur (item.end_serial + 1 - cur)).map (fun s => (item.code, s)) := by
  induction cur using fillItem.induct pt cap h item with
  | case1 cur hle hcond ih =>
    rw [fillItem]
    simp only [hle, hcond, if_true]
    have e1 : cur + cap - 1 + 1 = cur + cap := by omega
    rw [e1] at ih ⊢
    have e2 : item.end_serial + 1 - cur = (item.end_serial + 1 - (cur + cap)) + cap := by
      omega
    rw [e2, ← List.range'_append]
    simp only [cartonsSerials, linesSerials, lineSerials, List.flatMap_cons,
      List.flatMap_nil, List.append_nil, List.map_append, one_mul]
    have e3 : cur + cap - 1 + 1 - cur = cap := by omega
    rw [e3]
    simp only [cartonsSerials, linesSerials] at ih
    rw [List.append_assoc, ih]
  | case2 cur hle hcond =>
    rw [fillItem]
    simp only [hle, hcond, if_true, if_false]
    simp [cartonsSerials, linesSerials, lineSerials]
  | case3 cur hle =>
    rw [fillItem]
    simp only [hle, if_false]
    have e : item.end_serial + 1 - cur = 0 := by omega
    simp [cartonsSerials, linesSerials, e]

theorem fillItem_fulls (pt : String) (cap : Nat) (h : 0 < cap) (item : CartItem)
    (cur : Nat) :
    ∀ c ∈ (fillItem pt cap h item cur).1,
      c.capacity = cap ∧ c.total_quantity = cap ∧ c.is_mixed = false ∧
      c.product_type = pt ∧
      ∃ l, c.items = [l] ∧ l.quantity = cap ∧
        l.end_serial + 1 - l.start_serial = cap := by
  induction cur using fillItem.induct pt cap h item with
  | case1 cur hle hcond ih =>
    rw [fillItem]
    simp only [hle, hcond, if_true]
    intro c hc
    rcases List.mem_cons.mp hc with rfl | hmem
    · exact ⟨rfl, rfl, rfl, rfl, _, rfl, rfl, by dsimp only; omega⟩
    · exact ih c hmem
  | case2 cur hle hcond =>
    rw [fillItem]
    simp only [hle, hcond, if_true, if_false]
    intro c hc
    simp at hc
  | case3 cur hle =>
    rw [fillItem]
    simp only [hle, if_false]
    intro c hc
    simp at hc

theorem fillItem_rems (pt : String) (cap : Nat) (h : 0 < cap) (item : CartItem)
    (cur : Nat) :
    ∀ l ∈ (fillItem pt cap h item cur).2,
      0 < l.quantity ∧ l.quantity = l.end_serial + 1 - l.start_serial ∧
      l.quantity < cap := by
  induction cur using fillItem.induct pt cap h item with
  | case1 cur hle hcond ih =>
    rw [fillItem]
    simp only [hle, hcond, if_true]
    exact ih
  | case2 cur hle hcond =>
    rw [fillItem]
    simp only [hle, hcond, if_true, if_false]
    intro l hl
    rcases List.mem_singleton.mp hl with rfl
    refine ⟨by dsimp only; omega, by dsimp only; omega, by dsimp only; omega⟩
  | case3 cur hle =>
    rw [fillItem]
    simp only [hle, if_false]
    intro l hl
    simp at hl

theorem fillBucket_fulls (pt : String) (cap : Nat) (h : 0 < cap)
    (items : List CartItem) :
    ∀ c ∈ (fillBucket pt cap h items).1,
      c.capacity = cap ∧ c.total_quantity = cap ∧ c.is_mixed = false ∧
      c.product_type = pt ∧
      ∃ l, c.items = [l] ∧ l.quantity = cap ∧
        l.end_serial + 1 - l.start_serial = cap := by
  induction items with
  | nil => intro c hc; simp [fillBucket] at hc
  | cons it rest ih =>
    intro c hc
    rw [fillBucket] at hc
    rcases List.mem_append.mp hc with hm | hm
    · exact fillItem_fulls pt cap h it it.start_serial c hm
    · exact ih c hm

theorem fillBucket_rems (pt : String) (cap : Nat) (h : 0 < cap)
    (items : List CartItem) :
    ∀ l ∈ (fillBucket pt cap h items).2,
      0 < l.quantity ∧ l.quantity = l.end_serial + 1 - l.start_serial ∧
      l.quantity < cap := by
  induction items with
  | nil => intro l hl; simp [fillBucket] at hl
  | cons it rest ih =>
    intro l hl
    rw [fillBucket] at hl
    rcases List.mem_append.mp hl with hm | hm
    · exact fillItem_rems pt cap h it it.start_serial l hm
    · exact ih l hm

theorem fillBucket_serials (pt : String) (cap : Nat) (h : 0 < cap)
    (items : List CartItem) :
    List.Perm
      (cartonsSerials (fillBucket pt cap h items).1 ++
        linesSerials (fillBucket pt cap h items).2)
      (cartSerials items) := by
  induction items with
  | nil => simp [fillBucket, cartonsSerials, linesSerials, cartSerials]
  | cons it rest ih =>
    have hexp : fillBucket pt cap h (it :: rest) =
        ((fillItem pt cap h it it.start_serial).1 ++ (fillBucket pt cap h rest).1,
         (fillItem pt cap h it it.start_serial).2 ++ (fillBucket pt cap h rest).2) :=
      rfl
    rw [hexp]
    dsimp only
    rw [cartonsSerials_append, linesSerials_append, cartSerials_cons]
    refine (perm_shuffle _ _ _ _).trans ?_
    have h1 : cartonsSerials (fillItem pt cap h it it.start_serial).1 ++
        linesSerials (fillItem pt cap h it it.start_serial).2 = itemSerials it := by
      rw [fillItem_serials]
      rfl
    rw [h1]
    exact List.Perm.append_left _ ih

theorem sumQ_append (a b : List CartonLine) : sumQ (a ++ b) = sumQ a + sumQ b := by
  simp [sumQ]

theorem range'_map_merge (f : Nat → String × Nat) (s m n : Nat) :
    (List.range' s m).map f ++ (List.range' (s + m) n).map f =
      (List.range' s (n + m)).map f := by
  rw [← List.map_append]
  congr 1
  have e : s + m = s + 1 * m := by omega
  rw [e, List.range'_append]

theorem mixConsume_serials (pt : String) (cap : Nat) (h : 0 < cap)
    (r : CartonLine) (cs rem : Nat) (st : MixState) :
    stateSerials (mixConsume pt cap h r cs rem st) =
      stateSerials st ++ (List.range' cs rem).map (fun s => (r.product_code, s)) := by
  induction cs, rem, st using mixConsume.induct pt cap h r with
  | case1 cs rem st hpos hfit =>
    rw [mixConsume]
    simp only [hpos, hfit, if_true]
    simp only [stateSerials, linesSerials_append]
    have e : lineSerials
        { product_code := r.product_code, product_name := r.product_name,
          start_serial := cs, end_serial := cs + rem - 1,
          quantity := rem, location_code := r.location_code } =
        (List.range' cs rem).map (fun s => (r.product_code, s)) := by
      simp only [lineSerials]
      have e2 : cs + rem - 1 + 1 - cs = rem := by omega
      rw [e2]
    simp only [linesSerials, List.flatMap_cons, List.flatMap_nil,
      List.append_nil] at e ⊢
    rw [e, List.append_assoc]
  | case2 cs rem st hpos hfit hsp ih =>
    rw [mixConsume]
    simp only [hpos, hfit, hsp, if_true, if_false]
    rw [ih]
    simp only [stateSerials, cartonsSerials_append]
    have ef : cartonsSerials [mixFlush pt cap (st.cur_items ++
        [{ product_code := r.product_code, product_name := r.product_name,
           start_serial := cs, end_serial := cs + (cap - st.cur_qty) - 1,
           quantity := cap - st.cur_qty, location_code := r.location_code }])] =
        linesSerials st.cur_items ++
          (List.range' cs (cap - st.cur_qty)).map (fun s => (r.product_code, s)) := by
      simp only [cartonsSerials, mixFlush, List.flatMap_cons, List.flatMap_nil,
        List.append_nil, linesSerials_append]
      have e : lineSerials
          { product_code := r.product_code, product_name := r.product_name,
            start_serial := cs, end_serial := cs + (cap - st.cur_qty) - 1,
            quantity := cap - st.cur_qty, location_code := r.location_code } =
          (List.range' cs (cap - st.cur_qty)).map (fun s => (r.product_code, s)) := by
        simp only [lineSerials]
        have e2 : cs + (cap - st.cur_qty) - 1 + 1 - cs = cap - st.cur_qty := by omega
        rw [e2]
      simp only [linesSerials, List.flatMap_cons, List.flatMap_nil,
        List.append_nil] at e ⊢
      rw [e]
    rw [ef]
    have emerge :
        (List.range' cs (cap - st.cur_qty)).map (fun s => (r.product_code, s)) ++
          (List.range' (cs + (cap - st.cur_qty))
            (rem - (cap - st.cur_qty))).map (fun s => (r.product_code, s)) =
        (List.range' cs rem).map (fun s => (r.product_code, s)) := by
      rw [range'_map_merge]
      have e3 : rem - (cap - st.cur_qty) + (cap - st.cur_qty) = rem := by omega
      rw [e3]
    simp only [linesSerials, List.flatMap_nil, List.append_nil,
      List.append_assoc]
    rw [emerge]
  | case3 cs rem st hpos hfit hsp ih =>
    rw [mixConsume]
    simp only [hpos, hfit, hsp, if_true, if_false]
    rw [ih]
    simp only [stateSerials, cartonsSerials_append]
    have ef : cartonsSerials [mixFlush pt cap st.cur_items] =
        linesSerials st.cur_items := by
      simp [cartonsSerials, mixFlush]
    rw [ef]
    simp only [linesSerials, List.flatMap_nil, List.append_nil,
      List.append_assoc]
  | case4 cs rem st hpos =>
    rw [mixConsume]
    simp only [hpos, if_false]
    have e : rem = 0 := by omega
    simp [e]

theorem mixConsume_inv (pt : String) (cap : Nat) (h : 0 < cap)
    (r : CartonLine) (cs rem : Nat) (st : MixState) (hinv : MixInv pt cap st) :
    MixInv pt cap (mixConsume pt cap h r cs rem st) := by
  induction cs, rem, st using mixConsume.induct pt cap h r with
  | case1 cs rem st hpos hfit =>
    rw [mixConsume]
    simp only [hpos, hfit, if_true]
    obtain ⟨hq, hle, hlines, hcartons⟩ := hinv
    refine ⟨?_, ?_, ?_, ?_⟩
    · dsimp only
      rw [sumQ_append, hq]
      simp [sumQ]
    · dsimp only
      omega
    · dsimp only
      intro l hl
      rcases List.mem_append.mp hl with hm | hm
      · exact hlines l hm
      · rcases List.mem_singleton.mp hm with rfl
        refine ⟨by dsimp only; omega, by dsimp only; omega⟩
    · exact hcartons
  | case2 cs rem st hpos hfit hsp ih =>
    rw [mixConsume]
    simp only [hpos, hfit, hsp, if_true, if_false]
    obtain ⟨hq, hle, hlines, hcartons⟩ := hinv
    refine ih ⟨by simp [sumQ], by simp, by simp, ?_⟩
    dsimp only
    intro c hc
    rcases List.mem_append.mp hc with hm | hm
    · exact hcartons c hm
    · rcases List.mem_singleton.mp hm with rfl
      refine ⟨rfl, rfl, by simp [mixFlush], rfl, ?_, rfl, ?_⟩
      · dsimp only [mixFlush]
        rw [sumQ_append, ← hq]
        simp only [sumQ, List.map_cons, List.map_nil, List.sum_cons,
          List.sum_nil]
        omega
      · dsimp only [mixFlush]
        intro l hl
        rcases List.mem_append.mp hl with hm2 | hm2
        · exact hlines l hm2
        · rcases List.mem_singleton.mp hm2 with rfl
          refine ⟨by dsimp only; omega, by dsimp only; omega⟩
  | case3 cs rem st hpos hfit hsp ih =>
    rw [mixConsume]
    simp only [hpos, hfit, hsp, if_true, if_false]
    obtain ⟨hq, hle, hlines, hcartons⟩ := hinv
    refine ih ⟨by simp [sumQ], by simp, by simp, ?_⟩
    dsimp only
    intro c hc
    rcases List.mem_append.mp hc with hm | hm
    · exact hcartons c hm
    · rcases List.mem_singleton.mp hm with rfl
      have hqc : st.cur_qty = cap := by omega
      refine ⟨rfl, rfl, ?_, rfl, ?_, rfl, ?_⟩
      · dsimp only [mixFlush]
        intro he
        rw [he] at hq
        simp [sumQ] at hq
        omega
      · dsimp only [mixFlush]
        omega
      · dsimp only [mixFlush]
        exact hlines
  | case4 cs rem st hpos =>
    rw [mixConsume]
    simp only [hpos, if_false]
    exact hinv

theorem stateSerials_def (st : MixState) :
    stateSerials st = cartonsSerials st.cartons ++ linesSerials st.cur_items := rfl

theorem flatMap_congr_mem {α β : Type} (l : List α) {f g : α → List β}
    (h : ∀ a ∈ l, f a = g a) : l.flatMap f = l.flatMap g := by
  induction l with
  | nil => rfl
  | cons a rest ih =>
    simp only [List.flatMap_cons]
    rw [h a (List.mem_cons_self a rest), ih (fun b hb => h b (List.mem_cons_of_mem a hb))]

theorem mixFold_serials (pt : String) (cap : Nat) (h : 0 < cap)
    (rems : List CartonLine) : ∀ st0 : MixState,
    stateSerials (rems.foldl
      (fun st r => mixConsume pt cap h r r.start_serial r.quantity st) st0) =
      stateSerials st0 ++ rems.flatMap
        (fun r2 => (List.range' r2.start_serial r2.quantity).map
          (fun s => (r2.product_code, s))) := by
  induction rems with
  | nil => intro st0; simp
  | cons r rest ih =>
    intro st0
    simp only [List.foldl_cons, List.flatMap_cons]
    rw [ih, mixConsume_serials, List.append_assoc]

theorem mixFold_inv (pt : String) (cap : Nat) (h : 0 < cap)
    (rems : List CartonLine) : ∀ st0 : MixState, MixInv pt cap st0 →
    MixInv pt cap (rems.foldl
      (fun st r => mixConsume pt cap h r r.start_serial r.quantity st) st0) := by
  induction rems with
  | nil => intro st0 hinv; exact hinv
  | cons r rest ih =>
    intro st0 hinv
    simp only [List.foldl_cons]
    exact ih _ (mixConsume_inv pt cap h r r.start_serial r.quantity st0 hinv)

theorem mixInv_init (pt : String) (cap : Nat) :
    MixInv pt cap { cartons := [], cur_items := [], cur_qty := 0 } := by
  refine ⟨by simp [sumQ], by simp, ?_, ?_⟩
  · intro l hl; simp at hl
  · intro c hc; simp at hc

theorem mixRemainders_serials (pt : String) (cap : Nat) (h : 0 < cap)
    (rems : List CartonLine)
    (hq : ∀ l ∈ rems, l.quantity = l.end_serial + 1 - l.start_serial) :
    cartonsSerials (mixRemainders pt cap h rems) = linesSerials rems := by
  have hst := mixFold_serials pt cap h rems
    { cartons := [], cur_items := [], cur_qty := 0 }
  have hflat : rems.flatMap
      (fun r2 => (List.range' r2.start_serial r2.quantity).map
        (fun s => (r2.product_code, s))) = linesSerials rems := by
    refine flatMap_congr_mem rems (fun l hl => ?_)
    rw [hq l hl]
    rfl
  rw [mixRemainders]
  by_cases hemp :
    (rems.foldl (fun st r => mixConsume pt cap h r r.start_serial r.quantity st)
      { cartons := [], cur_items := [], cur_qty := 0 }).cur_items = []
  · simp only [hemp, if_true]
    have := hst
    simp only [stateSerials, hemp, linesSerials, List.flatMap_nil,
      List.append_nil] at this
    rw [this, hflat]
    simp [cartonsSerials, linesSerials]
  · simp only [hemp, if_false]
    rw [cartonsSerials_append]
    have hone : cartonsSerials
        [{ items := (rems.foldl
              (fun st r => mixConsume pt cap h r r.start_serial r.quantity st)
              { cartons := [], cur_items := [], cur_qty := 0 }).cur_items,
           capacity := cap,
           total_quantity := (rems.foldl
              (fun st r => mixConsume pt cap h r r.start_serial r.quantity st)
              { cartons := [], cur_items := [], cur_qty := 0 }).cur_qty,
           is_mixed := decide (1 < (((rems.foldl
              (fun st r => mixConsume pt cap h r r.start_serial r.quantity st)
              { cartons := [], cur_items := [], cur_qty := 0 }).cur_items.map
                (fun l => l.product_code)).dedup).length),
           product_type := pt }] =
        linesSerials (rems.foldl
            (fun st r => mixConsume pt cap h r r.start_serial r.quantity st)
            { cartons := [], cur_items := [], cur_qty := 0 }).cur_items := by
      simp [cartonsSerials]
    rw [hone, ← stateSerials_def, hst, hflat]
    simp [stateSerials, cartonsSerials, linesSerials]

theorem mixRemainders_wf (pt : String) (cap : Nat) (h : 0 < cap)
    (rems : List CartonLine) :
    ∀ c ∈ mixRemainders pt cap h rems,
      c.capacity = cap ∧ c.product_type = pt ∧ c.items ≠ [] ∧
      c.total_quantity = sumQ c.items ∧ c.total_quantity ≤ cap ∧
      c.is_mixed = decide (1 < ((c.items.map (fun l => l.product_code)).dedup).length) ∧
      ∀ l ∈ c.items, 0 < l.quantity ∧
        l.quantity = l.end_serial + 1 - l.start_serial := by
  have hinv := mixFold_inv pt cap h rems
    { cartons := [], cur_items := [], cur_qty := 0 } (mixInv_init pt cap)
  obtain ⟨hq, hle, hlines, hcartons⟩ := hinv
  intro c hc
  rw [mixRemainders] at hc
  by_cases hemp :
    (rems.foldl (fun st r => mixConsume pt cap h r r.start_serial r.quantity st)
      { cartons := [], cur_items := [], cur_qty := 0 }).cur_items = []
  · simp only [hemp, if_true] at hc
    obtain ⟨h1, h2, h3, h4, h5, h6, h7⟩ := hcartons c hc
    exact ⟨h1, h2, h3, by rw [h4, h5], by rw [h4], h6, h7⟩
  · simp only [hemp, if_false] at hc
    rcases List.mem_append.mp hc with hm | hm
    · obtain ⟨h1, h2, h3, h4, h5, h6, h7⟩ := hcartons c hm
      exact ⟨h1, h2, h3, by rw [h4, h5], by rw [h4], h6, h7⟩
    · rcases List.mem_singleton.mp hm with rfl
      exact ⟨rfl, rfl, hemp, hq, hle, rfl, hlines⟩

theorem mixRemainders_dropLast (pt : String) (cap : Nat) (h : 0 < cap)
    (rems : List CartonLine) :
    ∀ c ∈ (mixRemainders pt cap h rems).dropLast, c.total_quantity = cap := by
  have hinv := mixFold_inv pt cap h rems
    { cartons := [], cur_items := [], cur_qty := 0 } (mixInv_init pt cap)
  obtain ⟨hq, hle, hlines, hcartons⟩ := hinv
  intro c hc
  rw [mixRemainders] at hc
  by_cases hemp :
    (rems.foldl (fun st r => mixConsume pt cap h r r.start_serial r.quantity st)
      { cartons := [], cur_items := [], cur_qty := 0 }).cur_items = []
  · simp only [hemp, if_true] at hc
    exact (hcartons c (List.dropLast_subset _ hc)).2.2.2.1
  · simp only [hemp, if_false, List.dropLast_concat] at hc
    exact (hcartons c hc).2.2.2.1

theorem processBucket_wf (pt : String) (items : List CartItem) :
    ∀ c ∈ processBucket pt items,
      c.items ≠ [] ∧ c.total_quantity = sumQ c.items ∧
      c.total_quantity ≤ c.capacity ∧
      (c.is_mixed = true ↔
        1 < ((c.items.map (fun l => l.product_code)).dedup).length) ∧
      ∀ l ∈ c.items, 0 < l.quantity ∧
        l.quantity = l.end_serial + 1 - l.start_serial := by
  cases items with
  | nil => intro c hc; simp [processBucket] at hc
  | cons i0 rest =>
    intro c hc
    rw [processBucket] at hc
    rcases List.mem_append.mp hc with hm | hm
    · obtain ⟨h1, h2, h3, h4, l, hl, hlq, hlspan⟩ :=
        fillBucket_fulls pt (get_carton_capacity i0.code)
          (get_carton_capacity_pos i0.code) (i0 :: rest) c hm
      have hcap := get_carton_capacity_pos i0.code
      refine ⟨by simp [hl], ?_, by rw [h1, h2], ?_, ?_⟩
      · rw [h2, hl]
        simp [sumQ, hlq]
      · rw [h3, hl]
        simp
      · intro l2 hl2
        rw [hl] at hl2
        rcases List.mem_singleton.mp hl2 with rfl
        constructor
        · rw [hlq]; exact hcap
        · rw [hlq, hlspan]
    · obtain ⟨h1, h2, h3, h4, h5, h6, h7⟩ :=
        mixRemainders_wf pt (get_carton_capacity i0.code)
          (get_carton_capacity_pos i0.code) _ c hm
      refine ⟨h3, h4, by rw [h1]; exact h5, ?_, h7⟩
      rw [h6]
      exact decide_eq_true_iff

theorem processBucket_serials (pt : String) (items : List CartItem) :
    List.Perm (cartonsSerials (processBucket pt items)) (cartSerials items) := by
  cases items with
  | nil => simp [processBucket, cartonsSerials, cartSerials]
  | cons i0 rest =>
    rw [processBucket]
    rw [cartonsSerials_append]
    rw [mixRemainders_serials pt (get_carton_capacity i0.code)
      (get_carton_capacity_pos i0.code) _
      (fun l hl => ((fillBucket_rems pt (get_carton_capacity i0.code)
        (get_carton_capacity_pos i0.code) (i0 :: rest)) l hl).2.1)]
    exact fillBucket_serials pt (get_carton_capacity i0.code)
      (get_carton_capacity_pos i0.code) (i0 :: rest)

theorem addToGroup_flatMap (gs : List (String × List CartItem)) (k : String)
    (i : CartItem) :
    List.Perm ((addToGroup gs k i).flatMap (fun g => g.2))
      (gs.flatMap (fun g => g.2) ++ [i]) := by
  induction gs with
  | nil => simp [addToGroup]
  | cons g rest ih =>
    rcases g with ⟨k2, l⟩
    rw [addToGroup]
    by_cases hk : k2 = k
    · simp only [hk, if_true, List.flatMap_cons]
      rw [List.append_assoc, List.append_assoc]
      refine List.Perm.append_left _ ?_
      exact List.perm_append_comm
    · simp only [hk, if_false, List.flatMap_cons]
      rw [List.append_assoc]
      exact List.Perm.append_left _ ih

theorem groupByType_flatMap (items : List CartItem) :
    List.Perm ((groupByType items).flatMap (fun g => g.2)) items := by
  have hgen : ∀ (l : List CartItem) (gs : List (String × List CartItem)),
      List.Perm ((l.foldl (fun gs2 it =>
          addToGroup gs2 (get_product_type it.code) it) gs).flatMap (fun g => g.2))
        (gs.flatMap (fun g => g.2) ++ l) := by
    intro l
    induction l with
    | nil => intro gs; simp
    | cons it rest ih =>
      intro gs
      simp only [List.foldl_cons]
      refine (ih (addToGroup gs (get_product_type it.code) it)).trans ?_
      refine (List.Perm.append_right rest
        (addToGroup_flatMap gs (get_product_type it.code) it)).trans ?_
      rw [List.append_assoc]
      simp
  have := hgen items []
  simpa [groupByType] using this

theorem cartonsSerials_flatMap {α : Type} (l : List α) (f : α → List Carton) :
    cartonsSerials (l.flatMap f) = l.flatMap (fun a => cartonsSerials (f a)) := by
  induction l with
  | nil => simp [cartonsSerials]
  | cons a rest ih => simp only [List.flatMap_cons, cartonsSerials_append, ih]

theorem cartSerials_flatMap {α : Type} (l : List α) (f : α → List CartItem) :
    cartSerials (l.flatMap f) = l.flatMap (fun a => cartSerials (f a)) := by
  induction l with
  | nil => simp [cartSerials]
  | cons a rest ih =>
    simp only [List.flatMap_cons, cartSerials, List.flatMap_append] at ih ⊢
    rw [ih]

theorem pack_wf (items : List CartItem) :
    ∀ c ∈ pack_cartons_smart items,
      c.items ≠ [] ∧ c.total_quantity = sumQ c.items ∧
      c.total_quantity ≤ c.capacity ∧
      (c.is_mixed = true ↔
        1 < ((c.items.map (fun l => l.product_code)).dedup).length) ∧
      ∀ l ∈ c.items, 0 < l.quantity ∧
        l.quantity = l.end_serial + 1 - l.start_serial := by
  intro c hc
  rw [pack_cartons_smart] at hc
  rcases List.mem_flatMap.mp hc with ⟨g, hg, hcg⟩
  exact processBucket_wf g.1 g.2 c hcg

theorem pack_serials (items : List CartItem) :
    List.Perm (cartonsSerials (pack_cartons_smart items)) (cartSerials items) := by
  rw [pack_cartons_smart, cartonsSerials_flatMap]
  refine (List.Perm.flatMap_left _
    (fun g _ => processBucket_serials g.1 g.2)).trans ?_
  rw [← cartSerials_flatMap]
  exact (groupByType_flatMap items).flatMap_right _

theorem addKey_cons (t k : String) (rest : List String) (hne : k ≠ t) :
    addKey (t :: rest) k = t :: addKey rest k := by
  rw [addKey, addKey]
  by_cases hm : k ∈ rest
  · simp [List.mem_cons, hm, hne]
  · simp [List.mem_cons, hm, hne]

theorem addKey_nodup (ks : List String) (k : String) (h : ks.Nodup) :
    (addKey ks k).Nodup := by
  rw [addKey]
  by_cases hm : k ∈ ks
  · simp [hm, h]
  · simp [hm, List.nodup_append, h]

theorem mem_addKey_left (ks : List String) (k a : String) (h : a ∈ ks) :
    a ∈ addKey ks k := by
  rw [addKey]
  by_cases hm : k ∈ ks
  · simp [hm, h]
  · simp [hm, h]

theorem mem_addKey_self (ks : List String) (k : String) : k ∈ addKey ks k := by
  rw [addKey]
  by_cases hm : k ∈ ks
  · simp [hm]
  · simp [hm]

theorem foldl_addKey_mem (l : List CartItem) (ks : List String) (a : String)
    (h : a ∈ ks) :
    a ∈ l.foldl (fun ks2 it => addKey ks2 (get_product_type it.code)) ks := by
  induction l generalizing ks with
  | nil => exact h
  | cons it rest ih =>
    simp only [List.foldl_cons]
    exact ih _ (mem_addKey_left ks _ a h)

theorem specBucketOrder_mem (items : List CartItem) :
    ∀ it ∈ items, get_product_type it.code ∈ specBucketOrder items := by
  have hgen : ∀ (l : List CartItem) (ks : List String), ∀ it ∈ l,
      get_product_type it.code ∈
        l.foldl (fun ks2 it2 => addKey ks2 (get_product_type it2.code)) ks := by
    intro l
    induction l with
    | nil => intro ks it hit; simp at hit
    | cons it2 rest ih =>
      intro ks it hit
      rcases List.mem_cons.mp hit with rfl | hm
      · simp only [List.foldl_cons]
        exact foldl_addKey_mem rest _ _ (mem_addKey_self ks _)
      · simp only [List.foldl_cons]
        exact ih _ it hm
  exact hgen items []

theorem specBucketOrder_nodup (items : List CartItem) :
    (specBucketOrder items).Nodup := by
  have hgen : ∀ (l : List CartItem) (ks : List String), ks.Nodup →
      (l.foldl (fun ks2 it => addKey ks2 (get_product_type it.code)) ks).Nodup := by
    intro l
    induction l with
    | nil => intro ks h; exact h
    | cons it rest ih =>
      intro ks h
      simp only [List.foldl_cons]
      exact ih _ (addKey_nodup ks _ h)
  exact hgen items [] List.nodup_nil

theorem specBucketItems_of_not_mem (items : List CartItem) (k : String)
    (h : k ∉ specBucketOrder items) : specBucketItems items k = [] := by
  rw [specBucketItems, List.filter_eq_nil_iff]
  intro it hit
  intro hbeq
  apply h
  have he : get_product_type it.code = k := by
    exact eq_of_beq hbeq
  rw [← he]
  exact specBucketOrder_mem items it hit

theorem addToGroup_mapform (order : List String) (F : String → List CartItem)
    (k : String) (a : CartItem) (hnd : order.Nodup) (hnb : k ∉ order → F k = []) :
    addToGroup (order.map (fun t => (t, F t))) k a =
      (addKey order k).map
        (fun t => (t, F t ++ if k == t then [a] else [])) := by
  induction order with
  | nil =>
    rw [List.map_nil, addToGroup, addKey]
    simp only [List.not_mem_nil, if_false, List.nil_append, List.map_cons,
      List.map_nil, beq_self_eq_true, if_true]
    rw [hnb (by simp)]
    rfl
  | cons t rest ih =>
    rw [List.map_cons, addToGroup]
    by_cases hk : t = k
    · subst hk
      simp only [if_true]
      have haddKey : addKey (t :: rest) t = t :: rest := by
        rw [addKey]
        simp
      rw [haddKey]
      simp only [List.map_cons, beq_self_eq_true, if_true]
      have hrest : rest.map (fun t2 => (t2, F t2 ++ if t == t2 then [a] else [])) =
          rest.map (fun t2 => (t2, F t2)) := by
        refine List.map_congr_left (fun t2 ht2 => ?_)
        have hne : (t == t2) = false := by
          have : t ≠ t2 := by
            intro he
            subst he
            exact (List.nodup_cons.mp hnd).1 ht2
          simp [this]
        rw [hne]
        simp
      rw [hrest]
    · simp only [hk, if_false]
      have hne : k ≠ t := fun he => hk he.symm
      rw [addKey_cons t k rest hne, List.map_cons]
      have hbe : (k == t) = false := by simp [hne]
      simp only [hbe, Bool.false_eq_true, if_false, List.append_nil]
      rw [ih (List.nodup_cons.mp hnd).2
        (fun hnm => hnb (by simp [List.mem_cons, hnm, fun he => hne he]))]

theorem specBucketOrder_append_one (p : List CartItem) (a : CartItem) :
    specBucketOrder (p ++ [a]) =
      addKey (specBucketOrder p) (get_product_type a.code) := by
  rw [specBucketOrder, specBucketOrder, List.foldl_append]
  rfl

theorem specBucketItems_append_one (p : List CartItem) (a : CartItem) (t : String) :
    specBucketItems (p ++ [a]) t =
      specBucketItems p t ++
        (if get_product_type a.code == t then [a] else []) := by
  rw [specBucketItems, specBucketItems, List.filter_append]
  congr 1
  by_cases hb : (get_product_type a.code == t) = true
  · simp [hb]
  · simp only [Bool.not_eq_true] at hb
    simp [hb]

theorem groupByType_eq (items : List CartItem) :
    groupByType items =
      (specBucketOrder items).map
        (fun t => (t, specBucketItems items t)) := by
  induction items using List.reverseRecOn with
  | nil => rfl
  | append_singleton p a ih =>
    have hgroup : groupByType (p ++ [a]) =
        addToGroup (groupByType p) (get_product_type a.code) a := by
      rw [groupByType, groupByType, List.foldl_append]
      rfl
    rw [hgroup, ih,
      addToGroup_mapform (specBucketOrder p) (specBucketItems p)
        (get_product_type a.code) a (specBucketOrder_nodup p)
        (specBucketItems_of_not_mem p (get_product_type a.code)),
      specBucketOrder_append_one]
    refine List.map_congr_left (fun t ht => ?_)
    rw [specBucketItems_append_one]

theorem capacityScan_eq_none (table : List (String × Nat)) (code : String)
    (h : ∀ pc ∈ table, strStartsWith code pc.1 = false) :
    capacityScan table code = none := by
  induction table with
  | nil => rfl
  | cons pc rest ih =>
    rcases pc with ⟨p, c⟩
    rw [capacityScan]
    have hp : strStartsWith code p = false := h (p, c) (List.mem_cons_self _ _)
    simp only [hp, Bool.false_eq_true, if_false]
    exact ih (fun pc2 hm => h pc2 (List.mem_cons_of_mem _ hm))

theorem typeScan_eq_none (table : List (String × Nat)) (code : String)
    (h : ∀ pc ∈ table, strStartsWith code pc.1 = false) :
    typeScan table code = none := by
  induction table with
  | nil => rfl
  | cons pc rest ih =>
    rcases pc with ⟨p, c⟩
    rw [typeScan]
    have hp : strStartsWith code p = false := h (p, c) (List.mem_cons_self _ _)
    simp only [hp, Bool.false_eq_true, if_false]
    exact ih (fun pc2 hm => h pc2 (List.mem_cons_of_mem _ hm))

theorem capacityScan_first (t1 : List (String × Nat)) (p : String) (c : Nat)
    (t2 : List (String × Nat)) (code : String)
    (h1 : ∀ pc ∈ t1, strStartsWith code pc.1 = false)
    (h2 : strStartsWith code p = true) :
    capacityScan (t1 ++ (p, c) :: t2) code = some c := by
  induction t1 with
  | nil =>
    rw [List.nil_append, capacityScan]
    simp [h2]
  | cons pc rest ih =>
    rcases pc with ⟨p2, c2⟩
    rw [List.cons_append, capacityScan]
    have hp : strStartsWith code p2 = false := h1 (p2, c2) (List.mem_cons_self _ _)
    simp only [hp, Bool.false_eq_true, if_false]
    exact ih (fun pc2 hm => h1 pc2 (List.mem_cons_of_mem _ hm))

theorem typeScan_first (t1 : List (String × Nat)) (p : String) (c : Nat)
    (t2 : List (String × Nat)) (code : String)
    (h1 : ∀ pc ∈ t1, strStartsWith code pc.1 = false)
    (h2 : strStartsWith code p = true) :
    typeScan (t1 ++ (p, c) :: t2) code = some p := by
  induction t1 with
  | nil =>
    rw [List.nil_append, typeScan]
    simp [h2]
  | cons pc rest ih =>
    rcases pc with ⟨p2, c2⟩
    rw [List.cons_append, typeScan]
    have hp : strStartsWith code p2 = false := h1 (p2, c2) (List.mem_cons_self _ _)
    simp only [hp, Bool.false_eq_true, if_false]
    exact ih (fun pc2 hm => h1 pc2 (List.mem_cons_of_mem _ hm))

/-- Evaluates the filling phase on the single 230-unit run itmW. -/
theorem fillBucket_itmW :
    fillBucket "WALT" 150 (by decide) [itmW] = ([fullW], [lineW]) := by
  simp [fillBucket, fillItem, itmW, fullW, lineW]

/-- Evaluates the remainder mixing pass on Scenario C's two remainders. -/
theorem mixRemainders_scenC :
    mixRemainders "WALT" 150 (by decide) [lineA, lineB] = [mixC1, mixC2] := by
  simp [mixRemainders, mixConsume, mixFlush, List.foldl, lineA, lineB, mixC1, mixC2]

/-! Claim theorems. -/

/-- C1: for every input to pack_cartons_smart, the (product code, serial)
pairs covered by the serial slices of all emitted carton lines are a
permutation of the pairs spanned by the input runs, so each run's range
[start_serial, end_serial] is covered exactly once relative to the rest
of the input — no gap, no overlap, no duplicate.  Proved for all inputs,
valid ones included. -/
theorem claim_C1 (cart_items : List CartItem) :
    List.Perm (cartonsSerials (pack_cartons_smart cart_items))
      (cartSerials cart_items) :=
  pack_serials cart_items

/-- C2 (amended): pack_cartons_smart performs no validation and raises
nothing: a run with end_serial < start_serial (the spec's quantity-0
run) is silently skipped and on its own yields the empty carton list
rather than a ValidationError. -/
theorem claim_C2 (i : CartItem) (h : i.end_serial < i.start_serial) :
    pack_cartons_smart [i] = [] := by
  have hfi : fillItem (get_product_type i.code) (get_carton_capacity i.code)
      (get_carton_capacity_pos i.code) i i.start_serial = ([], []) := by
    rw [fillItem]
    simp only [if_neg (by omega : ¬ i.start_serial ≤ i.end_serial)]
  rw [pack_cartons_smart]
  have hg : groupByType [i] = [(get_product_type i.code, [i])] := rfl
  rw [hg]
  simp only [List.flatMap_cons, List.flatMap_nil, List.append_nil]
  rw [processBucket]
  have hfb : fillBucket (get_product_type i.code) (get_carton_capacity i.code)
      (get_carton_capacity_pos i.code) [i] = ([], []) := by
    simp [fillBucket, hfi]
  rw [hfb]
  simp [mixRemainders, List.foldl]

/-- C2 witness: the concrete invalid run badI is below any span and
packing it alone returns the empty list without failing. -/
theorem claim_C2_witness :
    badI.end_serial < badI.start_serial ∧ pack_cartons_smart [badI] = [] :=
  ⟨by decide, claim_C2 badI (by decide)⟩

/-- C2 counterexample: an input holding the valid run goodI and the
invalid run badI is not rejected — the call returns goodI's carton, a
partial result, and raises nothing, refuting the claimed validation
error and the claimed absence of cartons. -/
theorem claim_C2_counterexample :
    badI.end_serial < badI.start_serial ∧
    pack_cartons_smart [goodI, badI] = [fullG] ∧
    pack_cartons_smart [goodI, badI] ≠ [] :=
  ⟨by decide, pack_goodBad, by rw [pack_goodBad]; simp⟩

/-- C3: every carton packed by pack_cartons_smart has its lines'
quantities summing to at most its capacity (and total_quantity bounded
the same way); every carton of the single-product filling phase has
total_quantity exactly the bucket capacity; and in a bucket's
remainder-mixing pass every carton but the last has total_quantity
exactly the capacity, so only the very last may be under-filled. -/
theorem claim_C3 :
    (∀ (items : List CartItem), ∀ c ∈ pack_cartons_smart items,
      sumQ c.items ≤ c.capacity ∧ c.total_quantity ≤ c.capacity) ∧
    (∀ (pt : String) (cap : Nat) (h : 0 < cap) (items : List CartItem),
      ∀ c ∈ (fillBucket pt cap h items).1,
        c.total_quantity = cap ∧ c.capacity = cap) ∧
    (∀ (pt : String) (cap : Nat) (h : 0 < cap) (rems : List CartonLine),
      ∀ c ∈ (mixRemainders pt cap h rems).dropLast,
        c.total_quantity = cap) := by
  refine ⟨?_, ?_, ?_⟩
  · intro items c hc
    obtain ⟨h1, h2, h3, h4, h5⟩ := pack_wf items c hc
    exact ⟨by rw [← h2]; exact h3, h3⟩
  · intro pt cap h items c hc
    obtain ⟨h1, h2, h3, h4, hrest⟩ := fillBucket_fulls pt cap h items c hc
    exact ⟨h2, h1⟩
  · intro pt cap h rems c hc
    exact mixRemainders_dropLast pt cap h rems c hc

/-- C3 witness: instantiated at the packed run itmW and at Scenario C's
mixer output. -/
theorem claim_C3_witness :
    (sumQ fullW.items ≤ fullW.capacity ∧
      fullW.total_quantity ≤ fullW.capacity) ∧
    (fullW.total_quantity = 150 ∧ fullW.capacity = 150) ∧
    mixC1.total_quantity = 150 :=
  ⟨claim_C3.1 [itmW] fullW (by rw [pack_itmW]; simp),
   claim_C3.2.1 "WALT" 150 (by decide) [itmW] fullW
     (by rw [fillBucket_itmW]; simp),
   claim_C3.2.2 "WALT" 150 (by decide) [lineA, lineB] mixC1
     (by rw [mixRemainders_scenC]; simp)⟩

/-- C4: a packed carton's is_mixed flag is true exactly when its lines
carry more than one distinct product code; a carton holding two slices
of one product is not mixed. -/
theorem claim_C4 (items : List CartItem) :
    ∀ c ∈ pack_cartons_smart items,
      (c.is_mixed = true ↔
        1 < ((c.items.map (fun l => l.product_code)).dedup).length) :=
  fun c hc => (pack_wf items c hc).2.2.2.1

/-- C4 witness: instantiated at the carton sameC1 holding two slices of
WALLET BLACK, which is accordingly not mixed. -/
theorem claim_C4_witness :
    sameC1.is_mixed = true ↔
      1 < ((sameC1.items.map (fun l => l.product_code)).dedup).length :=
  claim_C4 [itmA, itmD] sameC1 (by rw [pack_sameCode]; simp)

/-- C5: the output of pack_cartons_smart is the concatenation, over the
buckets in the order they are first encountered in the input, of that
bucket's cartons computed from exactly its items in input order; and a
bucket's cartons are its filling-phase full cartons followed by its
remainder-pass cartons. -/
theorem claim_C5 :
    (∀ (items : List CartItem),
      pack_cartons_smart items =
        (specBucketOrder items).flatMap
          (fun t => processBucket t (specBucketItems items t))) ∧
    (∀ (pt : String) (i0 : CartItem) (rest : List CartItem),
      processBucket pt (i0 :: rest) =
        (fillBucket pt (get_carton_capacity i0.code)
          (get_carton_capacity_pos i0.code) (i0 :: rest)).1 ++
          mixRemainders pt (get_carton_capacity i0.code)
            (get_carton_capacity_pos i0.code)
            (fillBucket pt (get_carton_capacity i0.code)
              (get_carton_capacity_pos i0.code) (i0 :: rest)).2) := by
  constructor
  · intro items
    rw [pack_cartons_smart, groupByType_eq, List.flatMap_map]
  · intro pt i0 rest
    rfl

/-- C6: Scenario C — same WALT bucket of capacity 150, remainder A of
quantity 80 declared before remainder B of quantity 100; the call emits
exactly the mixed 150-unit carton A(80) + B(70) followed by the
30-unit carton of B's leftover, which is not mixed. -/
theorem claim_C6 :
    pack_cartons_smart [itmA, itmB] = [mixC1, mixC2] ∧
    mixC1.total_quantity = 150 ∧ mixC1.is_mixed = true ∧
    mixC2.is_mixed = false :=
  ⟨pack_scenC, rfl, rfl, rfl⟩

/-- C7: the classifiers scan the ordered capacity table and the first
key the code starts with wins, for the capacity and the bucket alike;
a code matching no key maps to the default bucket OTHER with the
default capacity 100.  Both functions are total Lean functions, hence
deterministic and never failing. -/
theorem claim_C7 :
    (∀ code : String,
      (∀ pc ∈ CARTON_CAPACITIES, strStartsWith code pc.1 = false) →
        get_carton_capacity code = 100 ∧ get_product_type code = "OTHER") ∧
    (∀ (code : String) (t1 : List (String × Nat)) (p : String) (c : Nat)
        (t2 : List (String × Nat)),
      CARTON_CAPACITIES = t1 ++ (p, c) :: t2 →
      (∀ pc ∈ t1, strStartsWith code pc.1 = false) →
      strStartsWith code p = true →
        get_carton_capacity code = c ∧ get_product_type code = p) := by
  constructor
  · intro code h
    constructor
    · rw [get_carton_capacity, capacityScan_eq_none CARTON_CAPACITIES code h]
      rfl
    · rw [get_product_type, typeScan_eq_none CARTON_CAPACITIES code h]
      rfl
  · intro code t1 p c t2 htab h1 h2
    constructor
    · rw [get_carton_capacity, htab, capacityScan_first t1 p c t2 code h1 h2]
      rfl
    · rw [get_product_type, htab, typeScan_first t1 p c t2 code h1 h2]
      rfl

/-- C7 witness: an unmatched code falls into the default bucket, and a
4PCS code takes the second table entry with no earlier key matching. -/
theorem claim_C7_witness :
    (get_carton_capacity "ZZZ" = 100 ∧ get_product_type "ZZZ" = "OTHER") ∧
    (get_carton_capacity "4PCS TAN" = 80 ∧
      get_product_type "4PCS TAN" = "4PCS") :=
  ⟨claim_C7.1 "ZZZ" (by decide),
   claim_C7.2 "4PCS TAN" [("WALT", 150)] "4PCS" 80 [("LAPB", 12)]
     (by decide) (by decide) (by decide)⟩

/-- C9: pack_cartons_smart is a pure function of its argument — the
embedding reads no state besides the input list and the module-level
constant table, so equal inputs give field-for-field equal outputs. -/
theorem claim_C9 (l1 l2 : List CartItem) (h : l1 = l2) :
    pack_cartons_smart l1 = pack_cartons_smart l2 := by
  rw [h]

/-- C9 witness: two calls on the same concrete input agree. -/
theorem claim_C9_witness :
    pack_cartons_smart [itmW] = pack_cartons_smart [itmW] :=
  claim_C9 [itmW] [itmW] rfl

/-- C10: every packed carton holds at least one line, its recorded
total_quantity equals the sum of its lines' quantities, and every line's
quantity is at least 1 and equals end_serial - start_serial + 1; holds
for every input, so the mixer never emits an empty carton. -/
theorem claim_C10 (items : List CartItem) :
    ∀ c ∈ pack_cartons_smart items,
      c.items ≠ [] ∧ c.total_quantity = sumQ c.items ∧
      ∀ l ∈ c.items, 1 ≤ l.quantity ∧
        l.quantity = l.end_serial - l.start_serial + 1 := by
  intro c hc
  obtain ⟨h1, h2, h3, h4, h5⟩ := pack_wf items c hc
  refine ⟨h1, h2, fun l hl => ?_⟩
  obtain ⟨hq1, hq2⟩ := h5 l hl
  exact ⟨hq1, by omega⟩

/-- C10 witness: instantiated at the under-filled trailing carton of
the packed run itmW. -/
theorem claim_C10_witness :
    restW.items ≠ [] ∧ restW.total_quantity = sumQ restW.items ∧
    ∀ l ∈ restW.items, 1 ≤ l.quantity ∧
      l.quantity = l.end_serial - l.start_serial + 1 :=
  claim_C10 [itmW] restW (by rw [pack_itmW]; simp)
